import Mathlib

/-!
Shallow embedding of the datafusion-orc batch decoding core: the schema
resolver (`Column.children`), the stripe/stream assembly (`Stripe`,
`StreamMap`) and the list batch decoder (`ListArrayDecoder.next_batch`),
together with theorems settling the specification claims about them.

Machine integers are modelled as `Nat` (with explicit `% 2 ^ w` where a
narrowing cast occurs in the source), byte buffers as `List Nat`, fallible
Rust functions as `Except`, and a Rust `HashMap` as an association list
with insert-replace semantics.
-/

namespace Orc

/-- Stream kinds from the ORC protobuf (`proto::stream::Kind`). -/
inductive Kind where
  | Present
  | Data
  | Length
  | DictionaryData
  | DictionaryCount
  | Secondary
  | RowIndex
  | BloomFilter
  | BloomFilterUtf8
  deriving DecidableEq, Repr, Inhabited

/-- Per-column encoding metadata from the stripe footer
(`proto::ColumnEncoding`): an encoding kind and an optional dictionary
size. The encoding kind is abstracted to a `Nat` tag. -/
structure ColumnEncoding where
  kind : Nat
  dictionary_size : Option Nat
  deriving DecidableEq, Repr

/-- One entry of the stripe footer's stream directory (`proto::Stream`):
column id, stream kind and byte length. -/
structure StreamInfo where
  column : Nat
  kind : Kind
  length : Nat
  deriving DecidableEq, Repr, Inhabited

/-- The decoded stripe footer (`proto::StripeFooter`), reduced to the two
fields the embedded code reads: the stream directory and the per-column
encodings. -/
structure StripeFooter where
  streams : List StreamInfo
  columns : List ColumnEncoding
  deriving DecidableEq, Repr

/-- The ORC logical type tree (`crate::schema::DataType`). Modelled from
its use in `column.rs`: every variant carries its `column_index`; struct
children carry a name, and the composite variants carry their child
types. -/
inductive DataType where
  | Boolean (column_index : Nat)
  | Byte (column_index : Nat)
  | Short (column_index : Nat)
  | Int (column_index : Nat)
  | Long (column_index : Nat)
  | Float (column_index : Nat)
  | Double (column_index : Nat)
  | String (column_index : Nat)
  | Varchar (column_index : Nat)
  | Char (column_index : Nat)
  | Binary (column_index : Nat)
  | Decimal (column_index : Nat)
  | Timestamp (column_index : Nat)
  | TimestampWithLocalTimezone (column_index : Nat)
  | Date (column_index : Nat)
  | Struct (column_index : Nat) (children : List (String × DataType))
  | List (column_index : Nat) (child : DataType)
  | Map (column_index : Nat) (key : DataType) (value : DataType)
  | Union (column_index : Nat) (variants : List DataType)

/-- The `column_index` accessor of the logical type tree. -/
def DataType.column_index : DataType → Nat
  | .Boolean ci => ci
  | .Byte ci => ci
  | .Short ci => ci
  | .Int ci => ci
  | .Long ci => ci
  | .Float ci => ci
  | .Double ci => ci
  | .String ci => ci
  | .Varchar ci => ci
  | .Char ci => ci
  | .Binary ci => ci
  | .Decimal ci => ci
  | .Timestamp ci => ci
  | .TimestampWithLocalTimezone ci => ci
  | .Date ci => ci
  | .Struct ci _ => ci
  | .List ci _ => ci
  | .Map ci _ _ => ci
  | .Union ci _ => ci

mutual

/-- The arrow output type (`arrow::datatypes::DataType`), reduced to the
shapes `Column::children` destructures: struct, list, map (entry field and
sorted flag) and union (type-id/field pairs and a mode flag); every other
arrow type is collapsed into `other` since the source treats them all
alike. -/
inductive ArrowDataType where
  | Struct (fields : List Field)
  | List (field : Field)
  | Map (entries : Field) (sorted : Bool)
  | Union (fields : List (Int × Field)) (sparse : Bool)
  | other (tag : Nat)

/-- An arrow `Field`: name, data type and nullability. -/
inductive Field where
  | mk (name : String) (data_type : ArrowDataType) (nullable : Bool)

end

instance : Inhabited Field := ⟨.mk "" (.other 0) true⟩

/-- Name accessor for an arrow field. -/
def Field.name : Field → String
  | .mk n _ _ => n

/-- Data type accessor for an arrow field. -/
def Field.data_type : Field → ArrowDataType
  | .mk _ d _ => d

/-- The error variants of `crate::error::OrcError` reachable from the
embedded code. -/
inductive OrcError where
  | MismatchedSchema (orc_type : DataType) (arrow_type : ArrowDataType)
  | UnsupportedTypeVariant (msg : String)
  | Unexpected (msg : String)
  | InvalidColumn (name : String)

/-- A schema navigation node (`Column` in `column.rs`): row count, shared
stripe footer, name, ORC data type and the arrow field it decodes into. -/
structure Column where
  number_of_rows : Nat
  footer : StripeFooter
  name : String
  data_type : DataType
  field : Field

/-- The Rust cast `usize as u32` in `Column::column_id`. -/
def usizeAsU32 (n : Nat) : Nat := n % 2 ^ 32

/-- The Rust cast `i8 as usize` in the union branch of `Column::children`
(`index2 as usize`): value preserved modulo `2 ^ 64`. -/
def i8AsUsize (t : Int) : Nat := (t % 2 ^ 64).toNat

/-- Embeds `Column::column_id`: the `column_index` cast to `u32`. -/
def Column.column_id (c : Column) : Nat :=
  usizeAsU32 c.data_type.column_index

/-- Embeds `Column::dictionary_size`. The source indexes
`footer.columns[column]` without a bounds check, which panics when
`column` is out of range; the panic is modelled as `none`. On an
in-range entry the source returns `dictionary_size.unwrap_or_default()`. -/
def Column.dictionary_size (c : Column) : Option Nat :=
  (c.footer.columns[c.data_type.column_index]?).map fun enc =>
    enc.dictionary_size.getD 0

/-- Embeds `Column::encoding`. The source indexes `footer.columns[column]`
without a bounds check, which panics when `column` is out of range; the
panic is modelled as `none`. -/
def Column.encoding (c : Column) : Option ColumnEncoding :=
  c.footer.columns[c.data_type.column_index]?

/-- The closure body of the union branch of `Column::children`: walk the
enumerated variants zipped with the output union's (type id, field) pairs,
checking `index == index2 as usize` for each pair and short-circuiting on
the first mismatch, as `collect::<Result<_>>` does. `ft` is the whole
output field type, used to build the `MismatchedSchema` error. -/
def unionChildrenGo (c : Column) (ft : ArrowDataType) :
    Nat → List DataType → List (Int × Field) → Except OrcError (List Column)
  | _, [], _ => .ok []
  | _, _ :: _, [] => .ok []
  | idx, dt :: dts, (tid, f) :: tfs =>
    if idx = i8AsUsize tid then
      match unionChildrenGo c ft (idx + 1) dts tfs with
      | .ok rest =>
          .ok ({ number_of_rows := c.number_of_rows, footer := c.footer,
                 name := toString idx, data_type := dt, field := f } :: rest)
      | .error e => .error e
    else
      .error (.MismatchedSchema c.data_type ft)

/-- Embeds `Column::children`: derive the child columns of a composite node,
re-validating congruence with the arrow output field. -/
def Column.children (c : Column) : Except OrcError (List Column) :=
  let field_type := c.field.data_type
  match c.data_type with
  | .Boolean _ | .Byte _ | .Short _ | .Int _ | .Long _ | .Float _ | .Double _
  | .String _ | .Varchar _ | .Char _ | .Binary _ | .Decimal _ | .Timestamp _
  | .TimestampWithLocalTimezone _ | .Date _ => .ok []
  | .Struct _ children =>
    match field_type with
    | .Struct fields =>
        .ok ((children.zip fields).map fun cf =>
          { number_of_rows := c.number_of_rows, footer := c.footer,
            name := cf.1.1, data_type := cf.1.2, field := cf.2 })
    | _ => .error (.MismatchedSchema c.data_type field_type)
  | .List _ child =>
    match field_type with
    | .List field =>
        .ok [{ number_of_rows := c.number_of_rows, footer := c.footer,
               name := "item", data_type := child, field := field }]
    | _ => .error (.MismatchedSchema c.data_type field_type)
  | .Map _ key value =>
    match field_type with
    | .Map entries sorted =>
        if sorted then .error (.UnsupportedTypeVariant "Sorted map")
        else
          match entries.data_type with
          | .Struct entryFields =>
            match entryFields with
            | [key_field, value_field] =>
                .ok [{ number_of_rows := c.number_of_rows, footer := c.footer,
                       name := "key", data_type := key, field := key_field },
                     { number_of_rows := c.number_of_rows, footer := c.footer,
                       name := "value", data_type := value, field := value_field }]
            | _ =>
                .error (.Unexpected ("arrow Map with " ++
                  toString entryFields.length ++ " columns per entry (expected 2)"))
          | _ => .error (.Unexpected "arrow Map with non-Struct entry type")
    | _ => .error (.MismatchedSchema c.data_type field_type)
  | .Union _ variants =>
    match field_type with
    | .Union fields _ => unionChildrenGo c field_type 0 variants fields
    | _ => .error (.MismatchedSchema c.data_type field_type)

/-! Stripe assembly: byte streams, the decompressing cursor, the
`StreamMap` and the stream demultiplexing loop of `Stripe::new`. -/

/-- Byte buffers (`bytes::Bytes`) are modelled as lists of byte values. -/
abbrev Bytes := List Nat

/-- Compression settings are opaque to the embedded code. -/
abbrev Compression := Nat

/-- Modelled from the spec: the decompressing transform
(`Decompressor` from `reader::decompress`, whose implementation is an
external collaborator) is consumed as a cursor over a stream's bytes;
its state is exactly its construction arguments. -/
structure Decompressor where
  data : Bytes
  compression : Option Compression
  scratch : Bytes
  deriving DecidableEq, Repr

/-- Embeds `Decompressor::new(data, compression, scratch)`: a freshly built
cursor holding the raw bytes, the compression setting and the scratch
buffer (passed as `vec![]`, i.e. `[]`, at every call site in scope). -/
def Decompressor.new (data : Bytes) (compression : Option Compression)
    (scratch : Bytes) : Decompressor :=
  { data := data, compression := compression, scratch := scratch }

/-- Lookup in the association-list model of `HashMap`: the first binding
for the key wins. -/
def alistFind (k : Nat × Kind) : List ((Nat × Kind) × Bytes) → Option Bytes
  | [] => none
  | kv :: rest => if kv.1 = k then some kv.2 else alistFind k rest

/-- Drop every binding for a key (used by the insert-replace model of
`HashMap::insert`). -/
def alistEraseKey (k : Nat × Kind) :
    List ((Nat × Kind) × Bytes) → List ((Nat × Kind) × Bytes)
  | [] => []
  | kv :: rest =>
      if kv.1 = k then alistEraseKey k rest else kv :: alistEraseKey k rest

/-- Embeds `HashMap::insert`: the new binding replaces any existing binding for
the same key. -/
def alistInsert (k : Nat × Kind) (v : Bytes) (m : List ((Nat × Kind) × Bytes)) :
    List ((Nat × Kind) × Bytes) :=
  (k, v) :: alistEraseKey k m

/-- Embeds `StreamMap`: the per-stripe map from (column id, stream kind) to raw
stream bytes, plus the file's compression setting. -/
structure StreamMap where
  inner : List ((Nat × Kind) × Bytes)
  compression : Option Compression

/-- Embeds `StreamMap::get_opt`: look up `(column.column_id(), kind)`; when
present, wrap a clone of the bytes in a fresh decompressing cursor. -/
def StreamMap.get_opt (m : StreamMap) (column : Column) (kind : Kind) :
    Option Decompressor :=
  (alistFind (column.column_id, kind) m.inner).map fun data =>
    Decompressor.new data m.compression []

/-- Embeds `StreamMap::get`: like `get_opt` but an absent stream is an
`InvalidColumn` error carrying the column's name. -/
def StreamMap.get (m : StreamMap) (column : Column) (kind : Kind) :
    Except OrcError Decompressor :=
  match m.get_opt column kind with
  | some d => .ok d
  | none => .error (.InvalidColumn column.name)

/-- A byte-range reader every read of which succeeds, returning
`f offset length`. -/
def okRead (f : Nat → Nat → Bytes) : Nat → Nat → Except OrcError Bytes :=
  fun off len => .ok (f off len)

/-- The stream demultiplexing loop of `Stripe::new`: starting from the
stripe's start offset, read each directory entry's byte range at the
running offset (`Column::read_stream(reader, stream_offset, length)`,
whose failure aborts with the `Io` error via `?`), insert the bytes
keyed by (column id, kind), and advance the offset by the entry's
length. Returns the final map together with the final running offset. -/
def buildStreamMap (read : Nat → Nat → Except OrcError Bytes) :
    List StreamInfo → Nat → List ((Nat × Kind) × Bytes) →
    Except OrcError (List ((Nat × Kind) × Bytes) × Nat)
  | [], off, m => .ok (m, off)
  | s :: rest, off, m =>
    match read off s.length with
    | .ok data =>
        buildStreamMap read rest (off + s.length)
          (alistInsert (s.column, s.kind) data m)
    | .error e => .error e

/-- The (column id, kind) key of a stream directory entry. -/
def streamKey (s : StreamInfo) : Nat × Kind := (s.column, s.kind)

/-- The sum of the byte lengths of the first `i` directory entries. -/
def prefixLengths (streams : List StreamInfo) (i : Nat) : Nat :=
  ((streams.take i).map StreamInfo.length).sum

/-- The index of the last directory entry bearing a given key, if any. -/
def lastKeyIdx (k : Nat × Kind) : List StreamInfo → Option Nat
  | [] => none
  | s :: rest =>
    match lastKeyIdx k rest with
    | some j => some (j + 1)
    | none => if streamKey s = k then some 0 else none

/-! The list batch decoder (`ListArrayDecoder` in
`arrow_reader/decoder/list.rs`). Length streams are modelled as the
sequence of successfully decoded length values; the claims under proof
presuppose the pulls succeed. -/

/-- Modelled from the spec: `derive_present_vec` (from
`arrow_reader::decoder`, missing from the shown slice) walks the parent
mask, pulling one boolean from the own presence stream at each
parent-present position and synthesizing not-present at each
parent-absent position without consuming the own stream. Returns the
mask and the remaining own stream. -/
def deriveGo : List Bool → List Bool → List Bool × List Bool
  | own, [] => ([], own)
  | own, false :: ps =>
      let r := deriveGo own ps
      (false :: r.1, r.2)
  | [], true :: ps =>
      let r := deriveGo [] ps
      (false :: r.1, r.2)
  | b :: own, true :: ps =>
      let r := deriveGo own ps
      (b :: r.1, r.2)

/-- Modelled from the spec: the effective presence mask of a batch. With
an own presence stream and a parent mask the own stream is consulted only
at parent-present positions; with an own stream and no parent mask,
`batch_size` booleans are pulled; with no own stream the parent mask (or
the absence of any mask) passes through. Returns the mask and the
remaining own stream. -/
def derive_present_vec (own : Option (List Bool)) (parent : Option (List Bool))
    (batch_size : Nat) : Option (List Bool) × Option (List Bool) :=
  match own, parent with
  | some s, some p => (some (deriveGo s p).1, some (deriveGo s p).2)
  | some s, none => (some (s.take batch_size), some (s.drop batch_size))
  | none, some p => (some p, none)
  | none, none => (none, none)

/-- Modelled from the spec: rebuild the full batch-length sequence from
the compacted pulled lengths, inserting zero at every not-present
position and the next pulled length at every present position, in
original row order. -/
def populateGo : List Nat → List Bool → List Nat
  | _, [] => []
  | ls, false :: ps => 0 :: populateGo ls ps
  | [], true :: ps => 0 :: populateGo [] ps
  | l :: ls, true :: ps => l :: populateGo ls ps

/-- Modelled from the spec: `populate_lengths_with_nulls(lengths,
batch_size, present)`. With no mask the pulled lengths already cover the
whole batch; with a mask the zero-filling walk applies. The batch size
argument only sizes the output (the mask has `batch_size` entries). -/
def populate_lengths_with_nulls (lengths : List Nat) (batch_size : Nat)
    (present : Option (List Bool)) : List Nat :=
  match present with
  | none => lengths
  | some p => populateGo lengths p

/-- Embeds `arrow::buffer::OffsetBuffer::from_lengths` (external collaborator):
the offsets are the running sums of the lengths, starting at zero. -/
def offsetBufferFromLengths (lengths : List Nat) : List Nat :=
  lengths.scanl (· + ·) 0

/-- The state of a `ListArrayDecoder`: the prefetched own presence
stream (`none` when the column has no Present stream), the remaining
length stream, and the element field. The inner element decoder is
abstract; the batch result records the single request made to it. -/
structure ListArrayDecoder where
  present : Option (List Bool)
  lengths : List Nat
  field : Field

/-- The observable outcome of one `ListArrayDecoder::next_batch` call:
the single child-decoder request (the `batch_size` and `parent_present`
arguments it is invoked with), the offsets handed to
`ListArray::try_new`, and the null buffer. -/
structure ListBatch where
  childBatchSize : Nat
  childParentPresent : Option (List Bool)
  offsets : List Nat
  nullBuffer : Option (List Bool)

/-- Embeds `ListArrayDecoder::next_batch(batch_size, parent_present)`: derive
the effective mask, count the present positions (`elements_to_fetch`),
pull that many lengths, request `total_length` child elements with no
parent mask, zero-fill the lengths over the not-present rows and build
the offsets. Returns the batch outcome and the advanced decoder state. -/
def ListArrayDecoder.next_batch (d : ListArrayDecoder) (batch_size : Nat)
    (parent_present : Option (List Bool)) : ListBatch × ListArrayDecoder :=
  let pr := derive_present_vec d.present parent_present batch_size
  let present := pr.1
  let elements_to_fetch :=
    match present with
    | some p => p.countP id
    | none => batch_size
  let lengths := d.lengths.take elements_to_fetch
  let total_length := lengths.sum
  let full := populate_lengths_with_nulls lengths batch_size present
  let offsets := offsetBufferFromLengths full
  ({ childBatchSize := total_length, childParentPresent := none,
     offsets := offsets, nullBuffer := present },
   { present := pr.2, lengths := d.lengths.drop elements_to_fetch,
     field := d.field })

/-! Concrete columns used as witnesses and counterexamples. -/

/-- An empty stripe footer. -/
def emptyFooter : StripeFooter := { streams := [], columns := [] }

/-- A primitive column (no children). -/
def primColEx : Column :=
  { number_of_rows := 7, footer := emptyFooter, name := "n",
    data_type := .Int 1, field := .mk "n" (.other 0) true }

/-- An ORC struct of arity 1 paired with an arrow struct of arity 2. -/
def structColEx : Column :=
  { number_of_rows := 4, footer := emptyFooter, name := "root",
    data_type := .Struct 0 [("a", .Int 1)],
    field := .mk "root"
      (.Struct [.mk "a" (.other 0) true, .mk "b" (.other 1) true]) true }

/-- An ORC map paired with an arrow map whose sorted flag is true and
whose entry type is not even a struct. -/
def mapColEx : Column :=
  { number_of_rows := 5, footer := emptyFooter, name := "m",
    data_type := .Map 1 (.String 2) (.Int 3),
    field := .mk "m" (.Map (.mk "entries" (.other 7) false) true) true }

/-- C5: for a Map column whose arrow output field is a Map with the
sorted flag set, `Column::children` fails with `UnsupportedTypeVariant`
regardless of the shape of the entry type: the sorted check runs before
any entry-shape check. -/
theorem children_sorted_map_unsupported (c : Column) (ci : Nat)
    (k v : DataType) (entries : Field)
    (hdt : c.data_type = .Map ci k v)
    (hft : c.field.data_type = .Map entries true) :
    c.children = .error (.UnsupportedTypeVariant "Sorted map") := by
  simp [Column.children, hdt, hft]

/-- Witness for `children_sorted_map_unsupported` at a concrete map
column whose entry type is not a struct. -/
theorem children_sorted_map_unsupported_witness :
    mapColEx.children = .error (.UnsupportedTypeVariant "Sorted map") :=
  children_sorted_map_unsupported mapColEx 1 (.String 2) (.Int 3)
    (.mk "entries" (.other 7) false) rfl rfl

/-- C8: `Column::children` is a pure function of its column: it takes
`&self`, mutates nothing, and two calls on the same column return
structurally equal results whenever they succeed. -/
theorem children_idempotent (c : Column) (cs cs' : List Column)
    (h1 : c.children = .ok cs) (h2 : c.children = .ok cs') : cs = cs' := by
  rw [h1] at h2
  exact (Except.ok.injEq cs cs').mp h2

/-- Witness for `children_idempotent` at a concrete primitive column. -/
theorem children_idempotent_witness : ([] : List Column) = [] :=
  children_idempotent primColEx [] [] rfl rfl

/-- C9: `Column::encoding` and `Column::dictionary_size` index the
footer's per-column encoding list at `column_index` without a bounds
check. The out-of-bounds access (a panic in the source, modelled as
`none`) happens exactly when `column_index` is not below the number of
footer entries; in bounds, `encoding` returns the entry and
`dictionary_size` returns its dictionary size, defaulting to 0 when
the footer records none. -/
theorem encoding_dictionary_size_bounds (c : Column) :
    (c.encoding = none ↔
      c.footer.columns.length ≤ c.data_type.column_index) ∧
    (c.dictionary_size = none ↔
      c.footer.columns.length ≤ c.data_type.column_index) ∧
    c.dictionary_size = c.encoding.map (fun enc => enc.dictionary_size.getD 0) ∧
    (∀ enc, c.encoding = some enc → enc.dictionary_size = none →
      c.dictionary_size = some 0) := by
  refine ⟨?_, ?_, rfl, ?_⟩
  · simp [Column.encoding]
  · simp [Column.dictionary_size]
  · intro enc henc hds
    simp [Column.dictionary_size, Column.encoding] at henc ⊢
    simp [henc, hds]

/-- A column whose `column_index` is in bounds for its footer and whose
encoding records no dictionary size. -/
def encColEx : Column :=
  { number_of_rows := 0,
    footer := { streams := [], columns := [{ kind := 0, dictionary_size := none }] },
    name := "x", data_type := .Int 0, field := .mk "x" (.other 0) true }

/-- A column whose `column_index` is out of bounds for its footer. -/
def encColOobEx : Column :=
  { number_of_rows := 0,
    footer := { streams := [], columns := [{ kind := 0, dictionary_size := none }] },
    name := "y", data_type := .Int 3, field := .mk "y" (.other 0) true }

/-- Witness for `encoding_dictionary_size_bounds`: an out-of-bounds
access yields the panic (modelled `none`), an in-bounds access with no
recorded dictionary size yields 0. -/
theorem encoding_dictionary_size_bounds_witness :
    encColOobEx.encoding = none ∧ encColEx.dictionary_size = some 0 :=
  ⟨(encoding_dictionary_size_bounds encColOobEx).1.mpr (by decide),
   (encoding_dictionary_size_bounds encColEx).2.2.2
     { kind := 0, dictionary_size := none } rfl rfl⟩

/-- C3 counterexample: an ORC struct of arity 1 paired with an arrow
struct of arity 2 does not fail with `MismatchedSchema`; the children
are paired positionally and silently truncated to the shorter list. -/
theorem children_struct_arity_counterexample :
    structColEx.data_type = .Struct 0 [("a", .Int 1)] ∧
    structColEx.field.data_type =
      .Struct [.mk "a" (.other 0) true, .mk "b" (.other 1) true] ∧
    structColEx.children =
      .ok [{ number_of_rows := 4, footer := emptyFooter, name := "a",
             data_type := .Int 1, field := .mk "a" (.other 0) true }] :=
  ⟨rfl, rfl, rfl⟩

/-- C3 amended: for a Struct column, `Column::children` fails with
`MismatchedSchema` exactly when the arrow output field is not a struct;
when it is a struct, the children are paired positionally
(`children.zip(fields)`), truncated to the shorter of the two lists,
with no arity check. -/
theorem children_struct_spec (c : Column) (ci : Nat)
    (cs : List (String × DataType)) (h : c.data_type = .Struct ci cs) :
    (∀ fields, c.field.data_type = .Struct fields →
        c.children = .ok ((cs.zip fields).map fun cf =>
          { number_of_rows := c.number_of_rows, footer := c.footer,
            name := cf.1.1, data_type := cf.1.2, field := cf.2 })) ∧
    (∀ ft, c.field.data_type = ft → (∀ fields, ft ≠ .Struct fields) →
        c.children = .error (.MismatchedSchema c.data_type ft)) := by
  constructor
  · intro fields hf
    simp [Column.children, h, hf]
  · intro ft hf hns
    cases ft with
    | Struct fields => exact absurd rfl (hns fields)
    | _ => simp [Column.children, h, hf]

/-- Witness for `children_struct_spec` at the concrete arity-mismatched
struct column. -/
theorem children_struct_spec_witness :
    structColEx.children =
      .ok [{ number_of_rows := 4, footer := emptyFooter, name := "a",
             data_type := .Int 1, field := .mk "a" (.other 0) true }] :=
  (children_struct_spec structColEx 0 [("a", .Int 1)] rfl).1
    [.mk "a" (.other 0) true, .mk "b" (.other 1) true] rfl

/-- The child columns the union branch of `Column::children` produces
when every type id matches its ordinal: the enumerated variants zipped
with the output fields, named by ordinal. -/
def unionChildrenOk (c : Column) : Nat → List DataType → List (Int × Field) → List Column
  | _, [], _ => []
  | _, _ :: _, [] => []
  | idx, dt :: dts, (_, f) :: tfs =>
      { number_of_rows := c.number_of_rows, footer := c.footer,
        name := toString idx, data_type := dt, field := f } ::
        unionChildrenOk c (idx + 1) dts tfs

theorem unionChildrenOk_length (c : Column) :
    ∀ (dts : List DataType) (tfs : List (Int × Field)) (idx : Nat),
      (unionChildrenOk c idx dts tfs).length = min dts.length tfs.length := by
  intro dts
  induction dts with
  | nil => intro tfs idx; simp [unionChildrenOk]
  | cons dt dts ih =>
    intro tfs idx
    cases tfs with
    | nil => simp [unionChildrenOk]
    | cons tf tfs =>
      obtain ⟨tid, f⟩ := tf
      simp [unionChildrenOk, ih, Nat.succ_min_succ]

theorem unionChildrenGo_ok (c : Column) (ft : ArrowDataType) :
    ∀ (dts : List DataType) (tfs : List (Int × Field)) (idx : Nat),
      (∀ i, i < min dts.length tfs.length →
        i8AsUsize (tfs.getD i default).1 = idx + i) →
      unionChildrenGo c ft idx dts tfs = .ok (unionChildrenOk c idx dts tfs) := by
  intro dts
  induction dts with
  | nil => intro tfs idx _; cases tfs <;> simp [unionChildrenGo, unionChildrenOk]
  | cons dt dts ih =>
    intro tfs idx hall
    cases tfs with
    | nil => simp [unionChildrenGo, unionChildrenOk]
    | cons tf tfs =>
      obtain ⟨tid, f⟩ := tf
      have h0 : i8AsUsize tid = idx := by
        have := hall 0 (by simp)
        simpa using this
      have hrest : ∀ i, i < min dts.length tfs.length →
          i8AsUsize (tfs.getD i default).1 = (idx + 1) + i := by
        intro i hi
        have hi' : i + 1 < min (dt :: dts).length ((tid, f) :: tfs).length := by
          simp only [List.length_cons, Nat.succ_min_succ]
          omega
        have := hall (i + 1) hi'
        simpa [Nat.add_assoc, Nat.add_comm 1 i] using this
      simp [unionChildrenGo, h0, ih tfs (idx + 1) hrest, unionChildrenOk]

theorem unionChildrenGo_err (c : Column) (ft : ArrowDataType) :
    ∀ (dts : List DataType) (tfs : List (Int × Field)) (idx : Nat),
      ¬(∀ i, i < min dts.length tfs.length →
          i8AsUsize (tfs.getD i default).1 = idx + i) →
      unionChildrenGo c ft idx dts tfs =
        .error (.MismatchedSchema c.data_type ft) := by
  intro dts
  induction dts with
  | nil => intro tfs idx hbad; exact absurd (by simp) hbad
  | cons dt dts ih =>
    intro tfs idx hbad
    cases tfs with
    | nil => exact absurd (by simp) hbad
    | cons tf tfs =>
      obtain ⟨tid, f⟩ := tf
      by_cases h0 : idx = i8AsUsize tid
      · have hbadrest : ¬(∀ i, i < min dts.length tfs.length →
            i8AsUsize (tfs.getD i default).1 = (idx + 1) + i) := by
          intro hrest
          apply hbad
          intro i hi
          cases i with
          | zero => simpa using h0.symm
          | succ j =>
            have hj : j < min dts.length tfs.length := by
              simp only [List.length_cons, Nat.succ_min_succ] at hi
              omega
            have := hrest j hj
            simpa [Nat.add_assoc, Nat.add_comm 1 j] using this
        simp only [unionChildrenGo]
        rw [if_pos h0, ih tfs (idx + 1) hbadrest]
      · simp [unionChildrenGo, h0]

/-- C4 amended: for a Union column, `Column::children` fails with
`MismatchedSchema` exactly when the arrow output field is not a union,
or when some position `i` within the common prefix of the variant list
and the output union's fields has a type id different from `i`; when all
type ids in the common prefix equal their ordinal, it succeeds, pairing
variants positionally and silently truncating to the shorter list, with
no check that the variant counts agree. -/
theorem children_union_spec (c : Column) (ci : Nat) (vs : List DataType)
    (h : c.data_type = .Union ci vs) :
    (∀ tfs sp, c.field.data_type = .Union tfs sp →
      ((∀ i, i < min vs.length tfs.length →
          i8AsUsize (tfs.getD i default).1 = i) →
        c.children = .ok (unionChildrenOk c 0 vs tfs)) ∧
      (¬(∀ i, i < min vs.length tfs.length →
          i8AsUsize (tfs.getD i default).1 = i) →
        c.children = .error (.MismatchedSchema c.data_type (.Union tfs sp))) ∧
      (unionChildrenOk c 0 vs tfs).length = min vs.length tfs.length) ∧
    (∀ ft, c.field.data_type = ft → (∀ tfs sp, ft ≠ .Union tfs sp) →
      c.children = .error (.MismatchedSchema c.data_type ft)) := by
  constructor
  · intro tfs sp hf
    refine ⟨?_, ?_, unionChildrenOk_length c vs tfs 0⟩
    · intro hall
      have : ∀ i, i < min vs.length tfs.length →
          i8AsUsize (tfs.getD i default).1 = 0 + i := by
        intro i hi; simpa using hall i hi
      simp [Column.children, h, hf, unionChildrenGo_ok c _ vs tfs 0 this]
    · intro hbad
      have hbad0 : ¬(∀ i, i < min vs.length tfs.length →
          i8AsUsize (tfs.getD i default).1 = 0 + i) := by
        intro hall; apply hbad; intro i hi; simpa using hall i hi
      have := unionChildrenGo_err c (.Union tfs sp) vs tfs 0 hbad0
      simp [Column.children, h, hf, this]
  · intro ft hf hns
    cases ft with
    | Union tfs sp => exact absurd rfl (hns tfs sp)
    | _ => simp [Column.children, h, hf]

/-- An ORC union with one variant paired with an arrow union with two
variants whose type ids match their ordinals. -/
def unionColEx : Column :=
  { number_of_rows := 2, footer := emptyFooter, name := "u",
    data_type := .Union 0 [.Int 1],
    field := .mk "u"
      (.Union [(0, .mk "v0" (.other 0) true), (1, .mk "v1" (.other 1) true)]
        true) true }

/-- An ORC union with one variant paired with an arrow union with two
variants whose second type id (7) disagrees with its ordinal (1). -/
def unionColEx2 : Column :=
  { number_of_rows := 2, footer := emptyFooter, name := "u",
    data_type := .Union 0 [.Int 1],
    field := .mk "u"
      (.Union [(0, .mk "v0" (.other 0) true), (7, .mk "v1" (.other 1) true)]
        true) true }

/-- C4 counterexample: an ORC union with 1 variant paired with an arrow
union with 2 variants does not fail with `MismatchedSchema`; the single
variant is paired with the first output field and the surplus output
variant is silently dropped — even when the surplus variant's type id
(7) disagrees with its ordinal position (1). -/
theorem children_union_arity_counterexample :
    unionColEx.data_type = .Union 0 [.Int 1] ∧
    unionColEx.field.data_type =
      .Union [(0, .mk "v0" (.other 0) true), (1, .mk "v1" (.other 1) true)] true ∧
    unionColEx.children =
      .ok [{ number_of_rows := 2, footer := emptyFooter, name := "0",
             data_type := .Int 1, field := .mk "v0" (.other 0) true }] ∧
    unionColEx2.field.data_type =
      .Union [(0, .mk "v0" (.other 0) true), (7, .mk "v1" (.other 1) true)] true ∧
    unionColEx2.children =
      .ok [{ number_of_rows := 2, footer := emptyFooter, name := "0",
             data_type := .Int 1, field := .mk "v0" (.other 0) true }] :=
  ⟨rfl, rfl, rfl, rfl, rfl⟩

/-- Witness for `children_union_spec`: the success branch at the
concrete arity-mismatched union column (all type ids in the common
prefix match), and the failure branch at the same column with the type
ids swapped. -/
def unionBadColEx : Column :=
  { number_of_rows := 2, footer := emptyFooter, name := "u",
    data_type := .Union 0 [.Int 1, .Long 2],
    field := .mk "u"
      (.Union [(1, .mk "v0" (.other 0) true), (0, .mk "v1" (.other 1) true)]
        true) true }

theorem children_union_spec_witness :
    unionColEx.children =
      .ok (unionChildrenOk unionColEx 0 [.Int 1]
        [(0, .mk "v0" (.other 0) true), (1, .mk "v1" (.other 1) true)]) ∧
    unionBadColEx.children =
      .error (.MismatchedSchema unionBadColEx.data_type
        (.Union [(1, .mk "v0" (.other 0) true), (0, .mk "v1" (.other 1) true)]
          true)) :=
  ⟨((children_union_spec unionColEx 0 [.Int 1] rfl).1 _ _ rfl).1 (by decide),
   ((children_union_spec unionBadColEx 0 [.Int 1, .Long 2] rfl).1 _ _ rfl).2.1
     (by decide)⟩

/-- C6: `StreamMap::get_opt` returns `none` exactly when no stream with
the `(column_id, kind)` key is in the map; when the key is present with
bytes `b` it returns a freshly constructed decompressing cursor
`Decompressor::new(b, compression, vec![])`, whose state depends only on
the map and the key (never on any earlier call). `StreamMap::get`
returns the same cursor in the present case and fails with
`InvalidColumn` carrying the column's name exactly when the key is
absent. -/
theorem StreamMap.get_spec (m : StreamMap) (c : Column) (k : Kind) :
    (m.get_opt c k = none ↔ alistFind (c.column_id, k) m.inner = none) ∧
    (∀ b, alistFind (c.column_id, k) m.inner = some b →
      m.get_opt c k = some (Decompressor.new b m.compression [])) ∧
    (∀ d, m.get_opt c k = some d → m.get c k = .ok d) ∧
    (m.get_opt c k = none → m.get c k = .error (.InvalidColumn c.name)) := by
  refine ⟨?_, ?_, ?_, ?_⟩
  · cases h : alistFind (c.column_id, k) m.inner <;>
      simp [StreamMap.get_opt, h]
  · intro b hb
    simp [StreamMap.get_opt, hb]
  · intro d hd
    simp [StreamMap.get, hd]
  · intro hn
    simp [StreamMap.get, hn]

/-- A stream map with a single Length stream for column 2. -/
def streamMapEx : StreamMap :=
  { inner := [((2, .Length), [9, 9])], compression := none }

/-- A column with `column_index` 2. -/
def lenColEx : Column :=
  { number_of_rows := 1, footer := emptyFooter, name := "l",
    data_type := .List 2 (.Int 3), field := .mk "l" (.other 0) true }

/-- Witness for `StreamMap.get_spec` at a concrete map: the present key
yields a fresh cursor through `get`, the absent key yields
`InvalidColumn`. -/
theorem StreamMap.get_spec_witness :
    streamMapEx.get lenColEx .Length = .ok (Decompressor.new [9, 9] none []) ∧
    streamMapEx.get lenColEx .Present = .error (.InvalidColumn "l") :=
  ⟨(StreamMap.get_spec streamMapEx lenColEx .Length).2.2.1 _
      ((StreamMap.get_spec streamMapEx lenColEx .Length).2.1 [9, 9] rfl),
   (StreamMap.get_spec streamMapEx lenColEx .Present).2.2.2
      ((StreamMap.get_spec streamMapEx lenColEx .Present).1.mpr rfl)⟩

theorem alistFind_eraseKey_ne (k k' : Nat × Kind) (h : k' ≠ k) :
    ∀ m : List ((Nat × Kind) × Bytes),
      alistFind k' (alistEraseKey k m) = alistFind k' m := by
  intro m
  induction m with
  | nil => rfl
  | cons kv rest ih =>
    by_cases hk : kv.1 = k
    · have hne : kv.1 ≠ k' := by rw [hk]; exact fun hh => h hh.symm
      simp only [alistEraseKey, if_pos hk, alistFind, if_neg hne]
      exact ih
    · simp only [alistEraseKey, if_neg hk, alistFind]
      by_cases hk' : kv.1 = k'
      · simp [hk']
      · simp only [if_neg hk']
        exact ih

theorem alistFind_insert (k k' : Nat × Kind) (v : Bytes)
    (m : List ((Nat × Kind) × Bytes)) :
    alistFind k' (alistInsert k v m) =
      if k = k' then some v else alistFind k' m := by
  by_cases h : k = k'
  · simp [alistInsert, alistFind, h]
  · have h' : k' ≠ k := fun hh => h hh.symm
    simp [alistInsert, alistFind, h, alistFind_eraseKey_ne k k' h' m]

/-- Characterization of the stream loop of `Stripe::new` with an
always-succeeding reader: it never fails, the final running offset is
the start offset plus the sum of all entry lengths, and a key lookup in
the final map returns the bytes read for the last directory entry
bearing that key (at that entry's accumulated offset), falling back to
the initial map for keys no entry bears. -/
theorem buildStreamMap_find (f : Nat → Nat → Bytes) :
    ∀ (streams : List StreamInfo) (off0 : Nat)
      (m : List ((Nat × Kind) × Bytes)),
      ∃ M, buildStreamMap (okRead f) streams off0 m =
          .ok (M, off0 + (streams.map StreamInfo.length).sum) ∧
        ∀ k, alistFind k M =
          (match lastKeyIdx k streams with
           | some j => some (f (off0 + prefixLengths streams j)
               ((streams.getD j default).length))
           | none => alistFind k m) := by
  intro streams
  induction streams with
  | nil =>
    intro off0 m
    exact ⟨m, by simp [buildStreamMap], fun k => by simp [lastKeyIdx]⟩
  | cons s rest ih =>
    intro off0 m
    obtain ⟨M, hM, hfind⟩ :=
      ih (off0 + s.length) (alistInsert (s.column, s.kind) (f off0 s.length) m)
    refine ⟨M, ?_, ?_⟩
    · simp only [buildStreamMap, okRead, hM, List.map_cons, List.sum_cons]
      rw [Nat.add_assoc]
    · intro k
      rw [hfind k]
      cases hl : lastKeyIdx k rest with
      | some j =>
        simp only [lastKeyIdx, hl]
        have h1 : prefixLengths (s :: rest) (j + 1) = s.length + prefixLengths rest j := by
          simp [prefixLengths]
        have h2 : (s :: rest).getD (j + 1) default = rest.getD j default := rfl
        rw [h1, h2, Nat.add_assoc]
      | none =>
        simp only [lastKeyIdx, hl]
        by_cases hk : streamKey s = k
        · simp only [if_pos hk]
          rw [alistFind_insert]
          have : (s.column, s.kind) = k := hk
          simp [this, prefixLengths]
        · simp only [if_neg hk]
          rw [alistFind_insert]
          have : (s.column, s.kind) ≠ k := hk
          simp [this]

/-- C7: with an always-succeeding reader, the stream loop of
`Stripe::new` stores, for the `i`-th directory entry, exactly the bytes
read at absolute offset `stripe start + sum of the lengths of the
preceding entries` with the entry's own length, keyed by the entry's
`(column id, kind)`; the whole loop is the fold of those insertions and
the running offset ends past all entries. -/
theorem buildStreamMap_entries_spec (f : Nat → Nat → Bytes)
    (streams : List StreamInfo) (off0 : Nat) :
    buildStreamMap (okRead f) streams off0 [] =
      .ok ((List.range streams.length).foldl
            (fun m i => alistInsert (streamKey (streams.getD i default))
              (f (off0 + prefixLengths streams i)
                ((streams.getD i default).length)) m)
            [],
           off0 + (streams.map StreamInfo.length).sum) := by
  suffices h : ∀ (streams : List StreamInfo) (off0 : Nat)
      (m : List ((Nat × Kind) × Bytes)),
      buildStreamMap (okRead f) streams off0 m =
        .ok ((List.range streams.length).foldl
              (fun m i => alistInsert (streamKey (streams.getD i default))
                (f (off0 + prefixLengths streams i)
                  ((streams.getD i default).length)) m)
              m,
             off0 + (streams.map StreamInfo.length).sum) by
    exact h streams off0 []
  intro streams
  induction streams with
  | nil => intro off0 m; simp [buildStreamMap]
  | cons s rest ih =>
    intro off0 m
    simp only [buildStreamMap, okRead]
    rw [ih (off0 + s.length) (alistInsert (s.column, s.kind) (f off0 s.length) m)]
    have hstep : ∀ (m' : List ((Nat × Kind) × Bytes)) (i : Nat),
        alistInsert (streamKey ((s :: rest).getD (i + 1) default))
          (f (off0 + prefixLengths (s :: rest) (i + 1))
            (((s :: rest).getD (i + 1) default).length)) m' =
        alistInsert (streamKey (rest.getD i default))
          (f (off0 + s.length + prefixLengths rest i)
            ((rest.getD i default).length)) m' := by
      intro m' i
      have h1 : prefixLengths (s :: rest) (i + 1) = s.length + prefixLengths rest i := by
        simp [prefixLengths]
      rw [h1, Nat.add_assoc]
      simp [List.getD_cons_succ]
    have hinit : alistInsert (s.column, s.kind) (f off0 s.length) m
        = alistInsert (streamKey ((s :: rest).getD 0 default))
            (f (off0 + prefixLengths (s :: rest) 0)
              (((s :: rest).getD 0 default).length)) m := by
      have h0 : off0 + prefixLengths (s :: rest) 0 = off0 := by
        simp [prefixLengths]
      rw [h0]
      simp [List.getD_cons_zero, streamKey]
    refine congrArg Except.ok (Prod.ext ?_ ?_)
    · simp only [List.length_cons, List.range_succ_eq_map, List.foldl_cons,
        List.foldl_map]
      rw [← hinit]
      exact List.foldl_ext _ _ _ (fun acc i _ => (hstep acc i).symm)
    · simp only [List.map_cons, List.sum_cons]
      rw [Nat.add_assoc]

/-- C10: if the stream directory has two entries `i < j` with the same
`(column id, kind)` key (`j` being the last such entry), the loop still
succeeds with no error, the later entry's bytes are what a lookup of the
key returns (the earlier entry's bytes are silently replaced), and the
running offset still advances past every entry's length. -/
theorem buildStreamMap_duplicate_key_last_wins (f : Nat → Nat → Bytes)
    (streams : List StreamInfo) (off0 : Nat) (i j : Nat)
    (hij : i < j) (hj : j < streams.length)
    (hkey : streamKey (streams.getD i default) = streamKey (streams.getD j default))
    (hlast : lastKeyIdx (streamKey (streams.getD j default)) streams = some j) :
    ∃ M, buildStreamMap (okRead f) streams off0 [] =
        .ok (M, off0 + (streams.map StreamInfo.length).sum) ∧
      alistFind (streamKey (streams.getD j default)) M =
        some (f (off0 + prefixLengths streams j)
          ((streams.getD j default).length)) := by
  obtain ⟨M, hM, hfind⟩ := buildStreamMap_find f streams off0 []
  refine ⟨M, hM, ?_⟩
  rw [hfind _, hlast]

/-- Witness for `buildStreamMap_duplicate_key_last_wins`: a two-entry
directory where both entries are (column 1, Data). -/
theorem buildStreamMap_duplicate_key_last_wins_witness :
    ∃ M, buildStreamMap (okRead fun o l => [o, l])
        [⟨1, .Data, 3⟩, ⟨1, .Data, 5⟩] 10 [] =
        .ok (M, 10 + (([⟨1, .Data, 3⟩, ⟨1, .Data, 5⟩] :
            List StreamInfo).map StreamInfo.length).sum) ∧
      alistFind (streamKey (([⟨1, .Data, 3⟩, ⟨1, .Data, 5⟩] :
          List StreamInfo).getD 1 default)) M =
        some ((fun o l => [o, l])
          (10 + prefixLengths [⟨1, .Data, 3⟩, ⟨1, .Data, 5⟩] 1)
          (([⟨1, .Data, 3⟩, ⟨1, .Data, 5⟩] :
            List StreamInfo).getD 1 default).length) :=
  buildStreamMap_duplicate_key_last_wins (fun o l => [o, l])
    [⟨1, .Data, 3⟩, ⟨1, .Data, 5⟩] 10 0 1
    (by decide) (by decide) (by decide) (by decide)

/-! Lemmas about offsets (`scanl`), the zero-filled length sequence and
prefix sums, supporting the list decoder claims. -/

theorem scanl_add_getD (L : List Nat) :
    ∀ (acc i : Nat), i ≤ L.length →
      (L.scanl (· + ·) acc).getD i 0 = acc + (L.take i).sum := by
  induction L with
  | nil =>
    intro acc i hi
    have h0 : i = 0 := Nat.le_zero.mp hi
    subst h0
    simp [List.scanl_nil]
  | cons a L ih =>
    intro acc i hi
    cases i with
    | zero => simp [List.scanl_cons]
    | succ j =>
      simp only [List.scanl_cons, List.singleton_append, List.getD_cons_succ,
        List.take_succ_cons, List.sum_cons]
      rw [ih (acc + a) j (by simpa using hi)]
      rw [Nat.add_assoc]

theorem sum_take_succ_getD (L : List Nat) :
    ∀ i, i < L.length → (L.take (i + 1)).sum = (L.take i).sum + L.getD i 0 := by
  induction L with
  | nil => intro i hi; simp at hi
  | cons a L ih =>
    intro i hi
    cases i with
    | zero => simp
    | succ j =>
      have hj : j < L.length := by simpa using hi
      simp only [List.take_succ_cons, List.sum_cons, List.getD_cons_succ,
        ih j hj]
      rw [Nat.add_assoc]

theorem populateGo_length : ∀ (p : List Bool) (ls : List Nat),
    (populateGo ls p).length = p.length := by
  intro p
  induction p with
  | nil => intro ls; simp [populateGo]
  | cons b ps ih =>
    intro ls
    cases b with
    | false => simp [populateGo, ih]
    | true =>
      cases ls with
      | nil => simp [populateGo, ih]
      | cons l ls => simp [populateGo, ih]

theorem populateGo_getD : ∀ (p : List Bool) (ls : List Nat) (i : Nat),
    p.countP id ≤ ls.length → i < p.length →
    (populateGo ls p).getD i 0 =
      if p.getD i false then ls.getD ((p.take i).countP id) 0 else 0 := by
  intro p
  induction p with
  | nil => intro ls i _ hi; simp at hi
  | cons b ps ih =>
    intro ls i hcount hi
    cases b with
    | false =>
      cases i with
      | zero => simp [populateGo]
      | succ j =>
        have hcount' : ps.countP id ≤ ls.length := by
          simpa [List.countP_cons] using hcount
        have hj : j < ps.length := by simpa using hi
        simpa [populateGo, List.countP_cons] using ih ls j hcount' hj
    | true =>
      cases ls with
      | nil =>
        exfalso
        simp [List.countP_cons] at hcount
      | cons l ls =>
        cases i with
        | zero => simp [populateGo]
        | succ j =>
          have hcount' : ps.countP id ≤ ls.length := by
            simp only [List.countP_cons, id, if_pos] at hcount
            simp at hcount
            omega
          have hj : j < ps.length := by simpa using hi
          simpa [populateGo, List.countP_cons] using ih ls j hcount' hj

/-- C1: on a `next_batch` call with batch size `n` whose effective
presence mask is `p` and whose pulled length sequence is `l` (one length
per present row), the produced offsets buffer has `n + 1` entries,
starts at 0, each consecutive difference is the row's pulled length when
the row is present and 0 when it is absent, and the child decoder is
asked for exactly `sum l` elements. -/
theorem next_batch_offsets_spec (d : ListArrayDecoder) (n : Nat)
    (parent_present : Option (List Bool)) (p : List Bool)
    (own' : Option (List Bool)) (l : List Nat)
    (hp : derive_present_vec d.present parent_present n = (some p, own'))
    (hplen : p.length = n)
    (hl : l = d.lengths.take (p.countP id))
    (hstream : p.countP id ≤ d.lengths.length) :
    (d.next_batch n parent_present).1.offsets.length = n + 1 ∧
    (d.next_batch n parent_present).1.offsets.getD 0 0 = 0 ∧
    (∀ i, i < n →
      (d.next_batch n parent_present).1.offsets.getD (i + 1) 0 -
        (d.next_batch n parent_present).1.offsets.getD i 0 =
      if p.getD i false then l.getD ((p.take i).countP id) 0 else 0) ∧
    (d.next_batch n parent_present).1.childBatchSize = l.sum := by
  have hbatch : (d.next_batch n parent_present).1 =
      { childBatchSize := l.sum, childParentPresent := none,
        offsets := offsetBufferFromLengths (populateGo l p),
        nullBuffer := some p } := by
    simp [ListArrayDecoder.next_batch, hp, ← hl, populate_lengths_with_nulls]
  have hllen : l.length = p.countP id := by
    rw [hl, List.length_take]
    exact Nat.min_eq_left hstream
  have hcnt : p.countP id ≤ l.length := Nat.le_of_eq hllen.symm
  have hfull : (populateGo l p).length = n := by
    rw [populateGo_length p l, hplen]
  refine ⟨?_, ?_, ?_, ?_⟩
  · rw [hbatch]
    simp [offsetBufferFromLengths, List.length_scanl, hfull]
  · rw [hbatch]
    simpa [offsetBufferFromLengths] using
      scanl_add_getD (populateGo l p) 0 0 (Nat.zero_le _)
  · intro i hi
    rw [hbatch]
    simp only [offsetBufferFromLengths]
    rw [scanl_add_getD (populateGo l p) 0 (i + 1) (by omega),
      scanl_add_getD (populateGo l p) 0 i (by omega),
      Nat.zero_add, Nat.zero_add,
      sum_take_succ_getD (populateGo l p) i (by omega),
      Nat.add_sub_cancel_left]
    exact populateGo_getD p l i hcnt (by omega)
  · rw [hbatch]

/-- The element field used by concrete list decoder states. -/
def itemFieldEx : Field := .mk "item" (.other 0) true

/-- Witness for `next_batch_offsets_spec`: batch size 3, mask
[true, false, true], length stream [2, 3]; the offsets are [0, 2, 2, 5],
so the difference at row 2 is the second pulled length. -/
theorem next_batch_offsets_spec_witness :
    ((ListArrayDecoder.mk none [2, 3] itemFieldEx).next_batch 3
        (some [true, false, true])).1.offsets.length = 3 + 1 ∧
    ((ListArrayDecoder.mk none [2, 3] itemFieldEx).next_batch 3
        (some [true, false, true])).1.offsets.getD 3 0 -
      ((ListArrayDecoder.mk none [2, 3] itemFieldEx).next_batch 3
        (some [true, false, true])).1.offsets.getD 2 0 =
      (if [true, false, true].getD 2 false
       then [2, 3].getD (([true, false, true].take 2).countP id) 0 else 0) :=
  ⟨(next_batch_offsets_spec ⟨none, [2, 3], itemFieldEx⟩ 3
      (some [true, false, true]) [true, false, true] none [2, 3]
      rfl rfl rfl (by decide)).1,
   (next_batch_offsets_spec ⟨none, [2, 3], itemFieldEx⟩ 3
      (some [true, false, true]) [true, false, true] none [2, 3]
      rfl rfl rfl (by decide)).2.2.1 2 (by decide)⟩

/-- C2: on every `next_batch` call the list decoder pulls from its
length stream exactly the count of present positions in the effective
mask (or `batch_size` when there is no mask at all), and makes exactly
one request to its inner element decoder, with the sum of the pulled
lengths as the requested element count and no parent presence mask. -/
theorem next_batch_consumption_spec (d : ListArrayDecoder) (batch_size : Nat)
    (parent_present : Option (List Bool)) :
    (∀ p, (derive_present_vec d.present parent_present batch_size).1 = some p →
      p.countP id ≤ d.lengths.length →
      (d.next_batch batch_size parent_present).2.lengths =
          d.lengths.drop (p.countP id) ∧
        (d.lengths.take (p.countP id)).length = p.countP id ∧
        (d.next_batch batch_size parent_present).1.childBatchSize =
          (d.lengths.take (p.countP id)).sum ∧
        (d.next_batch batch_size parent_present).1.childParentPresent = none) ∧
    ((derive_present_vec d.present parent_present batch_size).1 = none →
      batch_size ≤ d.lengths.length →
      (d.next_batch batch_size parent_present).2.lengths =
          d.lengths.drop batch_size ∧
        (d.lengths.take batch_size).length = batch_size ∧
        (d.next_batch batch_size parent_present).1.childBatchSize =
          (d.lengths.take batch_size).sum ∧
        (d.next_batch batch_size parent_present).1.childParentPresent = none) := by
  constructor
  · intro p hpr hstream
    refine ⟨?_, ?_, ?_, ?_⟩ <;>
      simp [ListArrayDecoder.next_batch, hpr, List.length_take,
        Nat.min_eq_left hstream]
  · intro hpr hstream
    refine ⟨?_, ?_, ?_, ?_⟩ <;>
      simp [ListArrayDecoder.next_batch, hpr, List.length_take,
        Nat.min_eq_left hstream]

/-- Witness for `next_batch_consumption_spec`: a masked call (2 of 3
rows present) and an unmasked call on concrete decoder states. -/
theorem next_batch_consumption_spec_witness :
    (((ListArrayDecoder.mk none [5, 6, 7] itemFieldEx).next_batch 3
        (some [true, true, false])).2.lengths =
      [5, 6, 7].drop ([true, true, false].countP id) ∧
    ([5, 6, 7].take ([true, true, false].countP id)).length =
      [true, true, false].countP id ∧
    (((ListArrayDecoder.mk none [5, 6, 7] itemFieldEx).next_batch 3
        (some [true, true, false])).1.childBatchSize =
      ([5, 6, 7].take ([true, true, false].countP id)).sum) ∧
    ((ListArrayDecoder.mk none [5, 6, 7] itemFieldEx).next_batch 3
        (some [true, true, false])).1.childParentPresent = none) ∧
    ((ListArrayDecoder.mk none [5, 6] itemFieldEx).next_batch 2
        none).2.lengths = [5, 6].drop 2 :=
  ⟨(next_batch_consumption_spec ⟨none, [5, 6, 7], itemFieldEx⟩ 3
      (some [true, true, false])).1 [true, true, false] rfl (by decide),
   ((next_batch_consumption_spec ⟨none, [5, 6], itemFieldEx⟩ 2 none).2
      rfl (by decide)).1⟩

end Orc
